import Mathlib

/-!
Shallow embedding of the HyperHealth subsystem of the repository
(src/gtechsd/hyperhealth): the two at-rest encryption helper modules
(`records/encryption.py` and `security/crypto.py`), the phone stub
(`phone/__init__.py`) and the API stub (`api/__init__.py`).

Bytes are modelled as `Nat` values below 256 in `List Nat`.  The
third-party cryptographic primitives (AES-GCM from the `cryptography`
package, SHA-256 and PBKDF2-HMAC-SHA256 from `hashlib`) are external
interfaces per the specification; they are modelled here by executable
stand-ins that satisfy the documented AEAD contract: a keystream cipher
that is an involution, and an authentication tag that is collision-free
(injective in the tagged message for a fixed key and nonce) — the
standard symbolic idealization of an unforgeable MAC.  All code of the
repository itself (argument plumbing, base64 and hex codecs at the
module boundaries, environment and file handling, stubs) is embedded
faithfully from the source.
-/

/-- Error outcomes of the embedded crypto operations.  In the Python
source these are distinct raised exceptions: `InvalidTag` from the
`cryptography` package on authentication failure, `binascii.Error` on
bad base64, `RuntimeError` for the missing environment variable,
`ValueError` from `bytes.fromhex` and from the AES key-size check. -/
inductive CryptoError where
  | invalidTag
  | invalidBase64
  | missingMasterKey
  | invalidHexKey
  | invalidKeyLength
deriving DecidableEq

/-- A list of natural numbers is a byte string when every entry is below 256. -/
def Bytes (bs : List Nat) : Prop := ∀ b ∈ bs, b < 256

instance (bs : List Nat) : Decidable (Bytes bs) := by
  unfold Bytes; infer_instance

/-- AES accepts 128-, 192- or 256-bit keys; the `cryptography` package
raises ValueError otherwise.  This check guards both embedded variants. -/
def keyLenOk (key : List Nat) : Bool :=
  key.length == 16 || key.length == 24 || key.length == 32

/-- Value of one character of the standard base64 alphabet, `none` for a
character outside the alphabet. -/
def b64Val (c : Char) : Option Nat :=
  let n := c.toNat
  if 65 ≤ n ∧ n ≤ 90 then some (n - 65)
  else if 97 ≤ n ∧ n ≤ 122 then some (n - 71)
  else if 48 ≤ n ∧ n ≤ 57 then some (n + 4)
  else if n = 43 then some 62
  else if n = 47 then some 63
  else none

/-- Character of the standard base64 alphabet for a 6-bit value. -/
def b64Chr (v : Nat) : Char :=
  Char.ofNat (if v < 26 then 65 + v else if v < 52 then 71 + v
              else if v < 62 then v - 4 else if v = 62 then 43 else 47)

/-- Base64 encoding of a byte string (model of `base64.b64encode`),
processing three bytes into four characters with `=` padding. -/
def b64encodeVals : List Nat → List Char
  | [] => []
  | [a] => [b64Chr (a / 4), b64Chr (a % 4 * 16), '=', '=']
  | [a, b] => [b64Chr (a / 4), b64Chr (a % 4 * 16 + b / 16), b64Chr (b % 16 * 4), '=']
  | a :: b :: c :: rest =>
      b64Chr (a / 4) :: b64Chr (a % 4 * 16 + b / 16) ::
      b64Chr (b % 16 * 4 + c / 64) :: b64Chr (c % 64) :: b64encodeVals rest

/-- Base64 decoding (model of `base64.b64decode`, restricted to
canonical four-character groups; the Python decoder additionally tolerates
some non-canonical inputs, which no code path of the repository uses). -/
def b64decodeChars : List Char → Option (List Nat)
  | [] => some []
  | c0 :: c1 :: c2 :: c3 :: rest =>
    match b64Val c0, b64Val c1 with
    | some v0, some v1 =>
      if c2 = '=' ∧ c3 = '=' ∧ rest = [] then
        some [v0 * 4 + v1 / 16]
      else if c3 = '=' ∧ rest = [] then
        match b64Val c2 with
        | some v2 => some [v0 * 4 + v1 / 16, v1 % 16 * 16 + v2 / 4]
        | none => none
      else
        match b64Val c2, b64Val c3 with
        | some v2, some v3 =>
          match b64decodeChars rest with
          | some bs => some ((v0 * 4 + v1 / 16) :: (v1 % 16 * 16 + v2 / 4) :: (v2 % 4 * 64 + v3) :: bs)
          | none => none
        | _, _ => none
    | _, _ => none
  | _ => none

/-- Value of a hexadecimal digit character, `none` for a non-hex character. -/
def hexDigitVal (c : Char) : Option Nat :=
  let n := c.toNat
  if 48 ≤ n ∧ n ≤ 57 then some (n - 48)
  else if 97 ≤ n ∧ n ≤ 102 then some (n - 87)
  else if 65 ≤ n ∧ n ≤ 70 then some (n - 55)
  else none

/-- Hex decoding of a character list (model of `bytes.fromhex`): two hex
digits per byte, failure on an odd length or a non-hex character. -/
def hexDecodeChars : List Char → Option (List Nat)
  | [] => some []
  | c0 :: c1 :: rest =>
    match hexDigitVal c0, hexDigitVal c1, hexDecodeChars rest with
    | some h, some l, some bs => some ((h * 16 + l) :: bs)
    | _, _, _ => none
  | _ => none

/-- Hex decoding of a string, model of Python `bytes.fromhex`. -/
def hexDecode (s : String) : Option (List Nat) :=
  hexDecodeChars s.toList

/-- Modelled from the spec: `os.urandom`, the secure random source.  The
entropy of the process run is passed explicitly as an oracle; `urandom
entropy n` reads `n` bytes from it.  Its only contracted property is
that it yields exactly `n` bytes. -/
def urandom (entropy : Nat → Nat) (n : Nat) : List Nat :=
  (List.range n).map (fun i => entropy i % 256)

/-- Modelled from the spec: the byte encoding Python `str.encode`
applies to a user identifier, modelled as the sequence of Unicode code
points.  Like the UTF-8 encoding it stands for, it is injective, which
is the only property the development uses. -/
def strBytes (s : String) : List Nat :=
  s.toList.map Char.toNat

/-- Modelled from the spec: the SHA-256 digest of `hashlib`, an external
primitive.  Collision resistance is idealized as injectivity: the model
digest is a length tag followed by the input itself, so two distinct
inputs always have distinct digests. -/
def modelSha256 (bs : List Nat) : List Nat :=
  (bs.length % 256) :: bs

/-- Modelled from the spec: PBKDF2-HMAC-SHA256 from `hashlib`, an
external primitive.  The model is an executable mixing function that
depends on every argument and returns exactly `dklen` bytes, the
property the repository code relies on. -/
def pbkdf2HmacSha256 (password salt : List Nat) (iterations dklen : Nat) : List Nat :=
  let seed := password.foldl (fun a b => a * 257 + b + 1) 3 * 5 +
              salt.foldl (fun a b => a * 257 + b + 1) 7 * 11 + iterations * 13
  (List.range dklen).map (fun i => (seed + i * 17) % 256)

/-- Modelled from the spec: the AES-CTR keystream byte at position `i`
under a key and nonce, an executable stand-in mixing key, nonce and
position into a byte. -/
def streamByte (key nonce : List Nat) (i : Nat) : Nat :=
  (key.foldl (fun a b => a * 257 + b + 1) 3 +
   nonce.foldl (fun a b => a * 257 + b + 1) 7 * 31 + i) % 256

/-- XOR of a byte string against the model keystream starting at
position `i`.  AES-GCM encrypts by exactly such a keystream XOR, so the
operation is its own inverse. -/
def xorStream (key nonce : List Nat) : Nat → List Nat → List Nat
  | _, [] => []
  | i, b :: bs => (b ^^^ streamByte key nonce i) :: xorStream key nonce (i + 1) bs

/-- Modelled from the spec: the GCM authentication tag, an external
primitive.  Unforgeability is idealized as injectivity in the tagged
ciphertext for a fixed key and nonce: the model tag is a length byte
followed by key, nonce and ciphertext, so under one key and nonce two
distinct ciphertexts always carry distinct tags. -/
def macBytes (key nonce ct : List Nat) : List Nat :=
  (ct.length % 256) :: (key ++ nonce ++ ct)

/-- Modelled from the spec: `AESGCM.encrypt` of the `cryptography`
package — ciphertext bytes with the authentication tag appended, the
standard AEAD convention. -/
def aesgcmEncrypt (key nonce pt : List Nat) : List Nat :=
  let ct := xorStream key nonce 0 pt
  ct ++ macBytes key nonce ct

/-- Modelled from the spec: `AESGCM.decrypt` — split the blob into
ciphertext and trailing tag, recompute the tag and fail with an
integrity error on any mismatch.  The model tag is variable-length, so
the split position is recovered from the known key and nonce lengths
(real GCM splits at a fixed 16 bytes from the end). -/
def aesgcmDecrypt (key nonce blob : List Nat) : Except CryptoError (List Nat) :=
  let overhead := 1 + key.length + nonce.length
  if blob.length < overhead then .error .invalidTag
  else if (blob.length - overhead) % 2 ≠ 0 then .error .invalidTag
  else
    let c := (blob.length - overhead) / 2
    let ct := blob.take c
    let tag := blob.drop c
    if tag = macBytes key nonce ct then .ok (xorStream key nonce 0 ct)
    else .error .invalidTag

namespace Records

/-- Container for an encryption key and its metadata, from
`records/encryption.py` (`EncryptionKey`). -/
structure EncryptionKey where
  key : List Nat
  iv : List Nat
deriving DecidableEq

/-- Per-user key derivation from `records/encryption.py`
(`derive_user_key`): salt is the SHA-256 digest of the user
identifier's byte encoding, 64 bytes are derived by PBKDF2-HMAC-SHA256
with 100000 iterations, and the result is split into a 32-byte key and
a 32-byte IV. -/
def derive_user_key (master_key : List Nat) (user_id : String) : List Nat × List Nat :=
  let salt := modelSha256 (strBytes user_id)
  let dk := pbkdf2HmacSha256 master_key salt 100000 64
  (dk.take 32, dk.drop 32)

/-- AES-GCM encryption from `records/encryption.py` (`encrypt_data`):
returns base64-encoded ciphertext and base64-encoded authentication tag
as two separate strings.  Constructing the AES cipher fails on an
invalid key size. -/
def encrypt_data (data key iv : List Nat) : Except CryptoError (String × String) :=
  if keyLenOk key then
    let ct := xorStream key iv 0 data
    .ok (String.mk (b64encodeVals ct), String.mk (b64encodeVals (macBytes key iv ct)))
  else .error .invalidKeyLength

/-- AES-GCM decryption from `records/encryption.py` (`decrypt_data`):
base64-decodes ciphertext and tag, then decrypts, failing with an
integrity error when the tag does not match. -/
def decrypt_data (ciphertext_b64 tag_b64 : String) (key iv : List Nat) :
    Except CryptoError (List Nat) :=
  match b64decodeChars ciphertext_b64.toList, b64decodeChars tag_b64.toList with
  | some ct, some tag =>
    if keyLenOk key then
      if tag = macBytes key iv ct then .ok (xorStream key iv 0 ct)
      else .error .invalidTag
    else .error .invalidKeyLength
  | _, _ => .error .invalidBase64

/-- One call of `load_master_key` from `records/encryption.py`, in
state-passing form.  The file system state is the content of the
`master.key` file in the working directory (`none` when absent).  If
the file exists its content is returned unchanged; otherwise 32 secure
random bytes are generated, written to the file and returned.  The
`wrote` flag records whether the call wrote the file. -/
def load_master_key (fs : Option (List Nat)) (entropy : Nat → Nat) :
    List Nat × Option (List Nat) × Bool :=
  match fs with
  | some content => (content, some content, false)
  | none =>
    let key := urandom entropy 32
    (key, some key, true)

/-- Trace of repeated `load_master_key` calls: the keys each call
returned, whether each call wrote the file, and the final file state. -/
structure LoadTrace where
  keys : List (List Nat)
  wrote : List Bool
  fs : Option (List Nat)
deriving DecidableEq

/-- Run `load_master_key` once per entropy oracle in the list, threading
the file-system state. -/
def runLoads (fs : Option (List Nat)) : List (Nat → Nat) → LoadTrace
  | [] => ⟨[], [], fs⟩
  | e :: es =>
    let r := load_master_key fs e
    let t := runLoads r.2.1 es
    ⟨r.1 :: t.keys, r.2.2 :: t.wrote, t.fs⟩

/-- Convenience wrapper from `records/encryption.py`
(`get_user_encryption_key`): loads the master key and derives the
per-user key and IV. -/
def get_user_encryption_key (fs : Option (List Nat)) (entropy : Nat → Nat)
    (user_id : String) : EncryptionKey :=
  let master := (load_master_key fs entropy).1
  let kiv := derive_user_key master user_id
  ⟨kiv.1, kiv.2⟩

end Records

namespace Security

/-- Retrieval of the master key from `security/crypto.py`
(`_get_master_key`): the environment value of
HYPERHEALTH_MASTER_KEY is read fresh (`none` when the variable is
absent, which raises RuntimeError) and hex-decoded (`bytes.fromhex`
raises ValueError on a non-hex string). -/
def get_master_key (env : Option String) : Except CryptoError (List Nat) :=
  match env with
  | none => .error .missingMasterKey
  | some s =>
    match hexDecode s with
    | some key => .ok key
    | none => .error .invalidHexKey

/-- AES-GCM encryption from `security/crypto.py` (`encrypt_data`): a
random 12-byte nonce is generated when none is supplied, the master key
is read from the environment, and the pair of raw ciphertext (tag
appended) and nonce is returned. -/
def encrypt_data (env : Option String) (entropy : Nat → Nat) (plaintext : List Nat)
    (nonce : Option (List Nat)) : Except CryptoError (List Nat × List Nat) :=
  let n := match nonce with
    | some n => n
    | none => urandom entropy 12
  match get_master_key env with
  | .error e => .error e
  | .ok key =>
    if keyLenOk key then .ok (aesgcmEncrypt key n plaintext, n)
    else .error .invalidKeyLength

/-- AES-GCM decryption from `security/crypto.py` (`decrypt_data`): the
master key is read from the environment and the blob is decrypted,
failing with an integrity error on tag mismatch. -/
def decrypt_data (env : Option String) (ciphertext nonce : List Nat) :
    Except CryptoError (List Nat) :=
  match get_master_key env with
  | .error e => .error e
  | .ok key =>
    if keyLenOk key then aesgcmDecrypt key nonce ciphertext
    else .error .invalidKeyLength

end Security

namespace Phone

/-- Default timeout for an outbound call, from `phone/__init__.py`. -/
def CALL_TIMEOUT_SECONDS : Nat := 300

/-- Call initiation from `phone/__init__.py` (`start_call`), in
state-passing form over a log of external actions (network or
telephony requests).  The stub performs no external action — the log is
returned untouched — and unconditionally reports success. -/
def start_call (phone_number : String) (context : Option (List (String × String)))
    (world : List String) : Bool × List String :=
  (true, world)

end Phone

namespace Api

/-- Route registration from `api/__init__.py` (`register_routes`): the
body is `pass`, so the supplied application object is returned exactly
as given and the operation returns no value. -/
def register_routes {α : Type} (app : α) : α × Unit :=
  (app, ())

end Api

theorem xorStream_length (key nonce : List Nat) (i : Nat) (bs : List Nat) :
    (xorStream key nonce i bs).length = bs.length := by
  induction bs generalizing i with
  | nil => rfl
  | cons b bs ih => simp [xorStream, ih]

theorem xorStream_xorStream (key nonce : List Nat) (i : Nat) (bs : List Nat) :
    xorStream key nonce i (xorStream key nonce i bs) = bs := by
  induction bs generalizing i with
  | nil => rfl
  | cons b bs ih => simp [xorStream, ih, Nat.xor_cancel_right]

theorem streamByte_lt (key nonce : List Nat) (i : Nat) :
    streamByte key nonce i < 256 :=
  Nat.mod_lt _ (by omega)

theorem xorStream_bytes (key nonce : List Nat) (i : Nat) (bs : List Nat)
    (h : Bytes bs) : Bytes (xorStream key nonce i bs) := by
  induction bs generalizing i with
  | nil => intro b hb; simp [xorStream] at hb
  | cons b bs ih =>
    intro x hx
    simp only [xorStream, List.mem_cons] at hx
    rcases hx with hx | hx
    · subst hx
      have hb : b < 256 := h b (List.mem_cons_self _ _)
      have hs : streamByte key nonce i < 256 := streamByte_lt key nonce i
      calc b ^^^ streamByte key nonce i < 2 ^ 8 :=
            Nat.xor_lt_two_pow (by omega) (by omega)
        _ = 256 := by norm_num
    · exact ih (i + 1) (fun y hy => h y (List.mem_cons_of_mem _ hy)) x hx

theorem b64Val_b64Chr : ∀ v, v < 64 → b64Val (b64Chr v) = some v := by decide

theorem b64Chr_ne_pad : ∀ v, v < 64 → b64Chr v ≠ '=' := by decide

theorem b64_roundtrip : ∀ bs : List Nat, Bytes bs →
    b64decodeChars (b64encodeVals bs) = some bs := by
  intro bs
  induction bs using b64encodeVals.induct with
  | case1 => intro _; rfl
  | case2 a =>
    intro h
    have ha : a < 256 := h a (by simp)
    have h1 : b64Val (b64Chr (a / 4)) = some (a / 4) := b64Val_b64Chr _ (by omega)
    have h2 : b64Val (b64Chr (a % 4 * 16)) = some (a % 4 * 16) := b64Val_b64Chr _ (by omega)
    simp [b64encodeVals, b64decodeChars, h1, h2]
    omega
  | case3 a b =>
    intro h
    have ha : a < 256 := h a (by simp)
    have hb : b < 256 := h b (by simp)
    have h1 : b64Val (b64Chr (a / 4)) = some (a / 4) := b64Val_b64Chr _ (by omega)
    have h2 : b64Val (b64Chr (a % 4 * 16 + b / 16)) = some (a % 4 * 16 + b / 16) :=
      b64Val_b64Chr _ (by omega)
    have h3 : b64Val (b64Chr (b % 16 * 4)) = some (b % 16 * 4) := b64Val_b64Chr _ (by omega)
    have hne : b64Chr (b % 16 * 4) ≠ '=' := b64Chr_ne_pad _ (by omega)
    simp [b64encodeVals, b64decodeChars, h1, h2, h3, hne]
    omega
  | case4 a b c rest ih =>
    intro h
    have ha : a < 256 := h a (by simp)
    have hb : b < 256 := h b (by simp)
    have hc : c < 256 := h c (by simp)
    have hrest : Bytes rest := fun x hx => h x (by simp [hx])
    have h1 : b64Val (b64Chr (a / 4)) = some (a / 4) := b64Val_b64Chr _ (by omega)
    have h2 : b64Val (b64Chr (a % 4 * 16 + b / 16)) = some (a % 4 * 16 + b / 16) :=
      b64Val_b64Chr _ (by omega)
    have h3 : b64Val (b64Chr (b % 16 * 4 + c / 64)) = some (b % 16 * 4 + c / 64) :=
      b64Val_b64Chr _ (by omega)
    have h4 : b64Val (b64Chr (c % 64)) = some (c % 64) := b64Val_b64Chr _ (by omega)
    have hne3 : b64Chr (b % 16 * 4 + c / 64) ≠ '=' := b64Chr_ne_pad _ (by omega)
    have hne4 : b64Chr (c % 64) ≠ '=' := b64Chr_ne_pad _ (by omega)
    simp [b64encodeVals, b64decodeChars, h1, h2, h3, h4, hne3, hne4, ih hrest]
    omega

theorem macBytes_bytes (key nonce ct : List Nat) (hk : Bytes key) (hn : Bytes nonce)
    (hc : Bytes ct) : Bytes (macBytes key nonce ct) := by
  intro b hb
  simp only [macBytes, List.mem_cons, List.mem_append] at hb
  rcases hb with hb | (hb | hb) | hb
  · subst hb; exact Nat.mod_lt _ (by omega)
  · exact hk b hb
  · exact hn b hb
  · exact hc b hb

theorem macBytes_inj (key nonce ct ct2 : List Nat)
    (h : macBytes key nonce ct = macBytes key nonce ct2) : ct = ct2 := by
  simp only [macBytes, List.cons.injEq] at h
  exact List.append_cancel_left h.2

theorem macBytes_length (key nonce ct : List Nat) :
    (macBytes key nonce ct).length = 1 + key.length + nonce.length + ct.length := by
  simp [macBytes]; omega

theorem set_ne_of_getD_ne (l : List Nat) (i b : Nat) (h : i < l.length)
    (hne : b ≠ l.getD i 0) : l.set i b ≠ l := by
  intro heq
  have h2 : (l.set i b).getD i 0 = b := by
    rw [List.getD_eq_getElem _ _ (by simpa using h), List.getElem_set_self]
  rw [heq] at h2
  exact hne h2.symm

theorem aesgcmDecrypt_append (key nonce ct tag : List Nat)
    (htag : tag.length = 1 + key.length + nonce.length + ct.length) :
    aesgcmDecrypt key nonce (ct ++ tag) =
      if tag = macBytes key nonce ct then .ok (xorStream key nonce 0 ct)
      else .error .invalidTag := by
  unfold aesgcmDecrypt
  simp only [List.length_append]
  rw [if_neg (by omega), if_neg (by omega)]
  have hc : (ct.length + tag.length - (1 + key.length + nonce.length)) / 2 = ct.length := by
    omega
  rw [hc, List.take_left, List.drop_left]

theorem aesgcm_roundtrip (key nonce pt : List Nat) :
    aesgcmDecrypt key nonce (aesgcmEncrypt key nonce pt) = .ok pt := by
  unfold aesgcmEncrypt
  rw [aesgcmDecrypt_append key nonce _ _ (macBytes_length key nonce _), if_pos rfl,
    xorStream_xorStream]

theorem aesgcm_tamper (key nonce pt : List Nat) (i b : Nat)
    (hi : i < (aesgcmEncrypt key nonce pt).length)
    (hb : b ≠ (aesgcmEncrypt key nonce pt).getD i 0) :
    aesgcmDecrypt key nonce ((aesgcmEncrypt key nonce pt).set i b) =
      .error .invalidTag := by
  have hmac := macBytes_length key nonce (xorStream key nonce 0 pt)
  unfold aesgcmEncrypt at hi hb ⊢
  simp only [List.length_append] at hi
  by_cases hsplit : i < (xorStream key nonce 0 pt).length
  · -- the flipped byte lies in the ciphertext part before the tag
    rw [List.set_append_left _ _ hsplit]
    rw [aesgcmDecrypt_append key nonce _ _ (by simp [hmac])]
    rw [if_neg]
    intro heq
    have hctne : (xorStream key nonce 0 pt).set i b ≠ xorStream key nonce 0 pt := by
      apply set_ne_of_getD_ne _ _ _ hsplit
      rwa [List.getD_append _ _ _ _ hsplit] at hb
    exact hctne (macBytes_inj key nonce _ _ heq).symm
  · -- the flipped byte lies in the appended authentication tag
    push_neg at hsplit
    rw [List.set_append_right _ _ hsplit]
    rw [aesgcmDecrypt_append key nonce _ _ (by simp [hmac])]
    rw [if_neg]
    apply set_ne_of_getD_ne _ _ _ (by omega)
    rwa [List.getD_append_right _ _ _ _ hsplit] at hb

theorem urandom_length (entropy : Nat → Nat) (n : Nat) :
    (urandom entropy n).length = n := by
  simp [urandom]

theorem pbkdf2_length (password salt : List Nat) (iterations dklen : Nat) :
    (pbkdf2HmacSha256 password salt iterations dklen).length = dklen := by
  simp [pbkdf2HmacSha256]

theorem strBytes_inj (s1 s2 : String) (h : strBytes s1 = strBytes s2) : s1 = s2 := by
  unfold strBytes at h
  have hchar : Function.Injective Char.toNat := by
    intro c1 c2 hc
    apply Char.ext
    apply UInt32.ext
    simpa [Char.toNat, UInt32.toNat] using hc
  have hlist : s1.toList = s2.toList := List.map_injective_iff.mpr hchar h
  cases s1
  cases s2
  simp only [String.toList] at hlist
  exact congrArg String.mk hlist

theorem modelSha256_inj (bs1 bs2 : List Nat) (h : modelSha256 bs1 = modelSha256 bs2) :
    bs1 = bs2 := by
  unfold modelSha256 at h
  injection h with h1 h2

theorem runLoads_steady (c : List Nat) (es : List (Nat → Nat)) :
    Records.runLoads (some c) es =
      ⟨List.replicate es.length c, List.replicate es.length false, some c⟩ := by
  induction es with
  | nil => rfl
  | cons e es ih => simp [Records.runLoads, Records.load_master_key, ih, List.replicate]

/-- C8: for every phone number string and every optional metadata value
(including none), the Phone stub start_call returns True and leaves the
external world untouched: no network or telephony action is logged and
no state is mutated. -/
theorem start_call_stub_spec (phone_number : String)
    (context : Option (List (String × String))) (world : List String) :
    Phone.start_call phone_number context world = (true, world) := rfl

/-- C9: for every application object, the API stub register_routes
performs no action: the supplied application object is returned
entirely unchanged and the operation returns no value. -/
theorem register_routes_noop (α : Type) (app : α) :
    Api.register_routes app = (app, ()) := rfl

/-- C6: load_master_key is idempotent over an unchanged working
directory: starting with no master.key file, the first call generates
32 secure-random bytes, writes them and returns them; every subsequent
call returns exactly the same bytes and does not rewrite the file. -/
theorem load_master_key_idempotent (e : Nat → Nat) (es : List (Nat → Nat)) :
    (Records.runLoads none (e :: es)).keys =
      List.replicate (es.length + 1) (urandom e 32) ∧
    (Records.runLoads none (e :: es)).wrote = true :: List.replicate es.length false ∧
    (Records.runLoads none (e :: es)).fs = some (urandom e 32) := by
  refine ⟨?_, ?_, ?_⟩ <;>
    simp [Records.runLoads, Records.load_master_key, runLoads_steady, List.replicate]

/-- C5: load_master_key always returns a 32-byte master key: starting
with no master.key file, every call of a run returns a 32-byte key, and
after at least one call the master.key file holds exactly 32 raw
bytes. -/
theorem load_master_key_returns_32_bytes (es : List (Nat → Nat)) :
    (∀ k ∈ (Records.runLoads none es).keys, k.length = 32) ∧
    (es ≠ [] → ∃ c, (Records.runLoads none es).fs = some c ∧ c.length = 32) := by
  cases es with
  | nil => exact ⟨by intro k hk; simp [Records.runLoads] at hk, by intro h; simp at h⟩
  | cons e es =>
    constructor
    · intro k hk
      simp [Records.runLoads, Records.load_master_key, runLoads_steady] at hk
      rcases hk with hk | hk <;>
        simp [hk, urandom_length]
    · intro _
      refine ⟨urandom e 32, ?_, urandom_length e 32⟩
      simp [Records.runLoads, Records.load_master_key, runLoads_steady]

theorem load_master_key_returns_32_bytes_witness :
    (urandom (fun i => i) 32 ∈
      (Records.runLoads none [fun i => i, fun i => i + 1]).keys) ∧
    (urandom (fun i => i) 32).length = 32 ∧
    (([fun i => i, fun i => i + 1] : List (Nat → Nat)) ≠ []) ∧
    (∃ c, (Records.runLoads none [fun i => i, fun i => i + 1]).fs = some c ∧
      c.length = 32) :=
  ⟨by decide,
   (load_master_key_returns_32_bytes [fun i => i, fun i => i + 1]).1 _ (by decide),
   by simp,
   (load_master_key_returns_32_bytes [fun i => i, fun i => i + 1]).2 (by simp)⟩

/-- C4: derive_user_key computes the salt as the digest of the user
identifier's byte encoding, derives exactly 64 bytes by
PBKDF2-HMAC-SHA256 with 100000 iterations and splits them into a
32-byte key and a 32-byte IV; it is deterministic, and distinct user
identifiers yield distinct salts. -/
theorem derive_user_key_spec :
    (∀ mk uid, (Records.derive_user_key mk uid).1.length = 32 ∧
               (Records.derive_user_key mk uid).2.length = 32) ∧
    (∀ mk1 uid1 mk2 uid2, mk1 = mk2 → uid1 = uid2 →
      Records.derive_user_key mk1 uid1 = Records.derive_user_key mk2 uid2) ∧
    (∀ mk uid, Records.derive_user_key mk uid =
      ((pbkdf2HmacSha256 mk (modelSha256 (strBytes uid)) 100000 64).take 32,
       (pbkdf2HmacSha256 mk (modelSha256 (strBytes uid)) 100000 64).drop 32)) ∧
    (∀ u1 u2 : String, u1 ≠ u2 → modelSha256 (strBytes u1) ≠ modelSha256 (strBytes u2)) := by
  refine ⟨?_, ?_, ?_, ?_⟩
  · intro mk uid
    constructor <;> simp [Records.derive_user_key, pbkdf2_length]
  · intro mk1 uid1 mk2 uid2 h1 h2
    rw [h1, h2]
  · intro mk uid
    rfl
  · intro u1 u2 hne h
    exact hne (strBytes_inj _ _ (modelSha256_inj _ _ h))

theorem derive_user_key_spec_witness :
    ((Records.derive_user_key [9, 9] "alice").1.length = 32 ∧
     (Records.derive_user_key [9, 9] "alice").2.length = 32) ∧
    (([9, 9] : List Nat) = [9, 9]) ∧ ("alice" : String) = "alice" ∧
    Records.derive_user_key [9, 9] "alice" = Records.derive_user_key [9, 9] "alice" ∧
    ("alice" : String) ≠ "bob" ∧
    modelSha256 (strBytes "alice") ≠ modelSha256 (strBytes "bob") :=
  ⟨derive_user_key_spec.1 [9, 9] "alice", rfl, rfl,
   derive_user_key_spec.2.1 [9, 9] "alice" [9, 9] "alice" rfl rfl,
   by decide,
   derive_user_key_spec.2.2.2 "alice" "bob" (by decide)⟩

/-- C3: for both Security-variant operations, an absent master-key
environment variable is a fatal configuration error at the point of
use, and a value that is not valid hexadecimal makes the hex decoding
failure likewise fatal; no key is auto-generated. -/
theorem master_key_env_fatal :
    (∀ entropy pt nonce,
      Security.encrypt_data none entropy pt nonce = .error .missingMasterKey) ∧
    (∀ ct n, Security.decrypt_data none ct n = .error .missingMasterKey) ∧
    (∀ s entropy pt nonce, hexDecode s = none →
      Security.encrypt_data (some s) entropy pt nonce = .error .invalidHexKey) ∧
    (∀ s ct n, hexDecode s = none →
      Security.decrypt_data (some s) ct n = .error .invalidHexKey) := by
  refine ⟨?_, ?_, ?_, ?_⟩
  · intro entropy pt nonce
    simp [Security.encrypt_data, Security.get_master_key]
  · intro ct n
    simp [Security.decrypt_data, Security.get_master_key]
  · intro s entropy pt nonce h
    simp [Security.encrypt_data, Security.get_master_key, h]
  · intro s ct n h
    simp [Security.decrypt_data, Security.get_master_key, h]

theorem master_key_env_fatal_witness :
    Security.encrypt_data none (fun i => i) [1, 2] none = .error .missingMasterKey ∧
    Security.decrypt_data none [1, 2] [3] = .error .missingMasterKey ∧
    hexDecode "zz" = none ∧
    Security.encrypt_data (some "zz") (fun i => i) [1, 2] none = .error .invalidHexKey ∧
    Security.decrypt_data (some "zz") [1, 2] [3] = .error .invalidHexKey :=
  ⟨master_key_env_fatal.1 _ _ _,
   master_key_env_fatal.2.1 _ _,
   by decide,
   master_key_env_fatal.2.2.1 "zz" _ _ _ (by decide),
   master_key_env_fatal.2.2.2 "zz" _ _ (by decide)⟩

/-- C1: decrypting the result of encryption reproduces the original
plaintext exactly, in both variants: the Records variant round-trips
byte data under a 32-byte key and its IV, and the Security variant,
with the master-key environment variable set to a valid hex key,
decrypts whatever pair encrypt_data returned back to the plaintext. -/
theorem encrypt_decrypt_roundtrip :
    (∀ data key iv, Bytes data → Bytes key → Bytes iv → key.length = 32 →
      ∃ ctB tagB, Records.encrypt_data data key iv = .ok (ctB, tagB) ∧
        Records.decrypt_data ctB tagB key iv = .ok data) ∧
    (∀ s key entropy pt nonce, hexDecode s = some key → keyLenOk key = true →
      ∃ ct n, Security.encrypt_data (some s) entropy pt nonce = .ok (ct, n) ∧
        Security.decrypt_data (some s) ct n = .ok pt) := by
  constructor
  · intro data key iv hd hk hiv hklen
    have hkOk : keyLenOk key = true := by simp [keyLenOk, hklen]
    have hct := xorStream_bytes key iv 0 data hd
    have hmacB := macBytes_bytes key iv _ hk hiv hct
    refine ⟨String.mk (b64encodeVals (xorStream key iv 0 data)),
      String.mk (b64encodeVals (macBytes key iv (xorStream key iv 0 data))), ?_, ?_⟩
    · simp [Records.encrypt_data, hkOk]
    · show Records.decrypt_data ⟨b64encodeVals (xorStream key iv 0 data)⟩
        ⟨b64encodeVals (macBytes key iv (xorStream key iv 0 data))⟩ key iv = .ok data
      unfold Records.decrypt_data
      rw [show (String.mk (b64encodeVals (xorStream key iv 0 data))).toList =
          b64encodeVals (xorStream key iv 0 data) from rfl,
        show (String.mk (b64encodeVals (macBytes key iv (xorStream key iv 0 data)))).toList =
          b64encodeVals (macBytes key iv (xorStream key iv 0 data)) from rfl,
        b64_roundtrip _ hct, b64_roundtrip _ hmacB]
      simp [hkOk, xorStream_xorStream]
  · intro s key entropy pt nonce hhex hkOk
    cases nonce with
    | none =>
      refine ⟨aesgcmEncrypt key (urandom entropy 12) pt, urandom entropy 12, ?_, ?_⟩
      · simp [Security.encrypt_data, Security.get_master_key, hhex, hkOk]
      · simp [Security.decrypt_data, Security.get_master_key, hhex, hkOk, aesgcm_roundtrip]
    | some n0 =>
      refine ⟨aesgcmEncrypt key n0 pt, n0, ?_, ?_⟩
      · simp [Security.encrypt_data, Security.get_master_key, hhex, hkOk]
      · simp [Security.decrypt_data, Security.get_master_key, hhex, hkOk, aesgcm_roundtrip]

theorem encrypt_decrypt_roundtrip_witness :
    Bytes [72, 105] ∧ Bytes (List.replicate 32 1) ∧ Bytes (List.replicate 32 2) ∧
    (List.replicate 32 1 : List Nat).length = 32 ∧
    (∃ ctB tagB,
      Records.encrypt_data [72, 105] (List.replicate 32 1) (List.replicate 32 2) =
        .ok (ctB, tagB) ∧
      Records.decrypt_data ctB tagB (List.replicate 32 1) (List.replicate 32 2) =
        .ok [72, 105]) ∧
    hexDecode "000102030405060708090a0b0c0d0e0f" =
      some [0, 1, 2, 3, 4, 5, 6, 7, 8, 9, 10, 11, 12, 13, 14, 15] ∧
    keyLenOk [0, 1, 2, 3, 4, 5, 6, 7, 8, 9, 10, 11, 12, 13, 14, 15] = true ∧
    (∃ ct n,
      Security.encrypt_data (some "000102030405060708090a0b0c0d0e0f")
        (fun i => i) [1, 2, 3] none = .ok (ct, n) ∧
      Security.decrypt_data (some "000102030405060708090a0b0c0d0e0f") ct n =
        .ok [1, 2, 3]) :=
  ⟨by decide, by decide, by decide, by decide,
   encrypt_decrypt_roundtrip.1 [72, 105] (List.replicate 32 1) (List.replicate 32 2)
     (by decide) (by decide) (by decide) (by decide),
   by decide, by decide,
   encrypt_decrypt_roundtrip.2 "000102030405060708090a0b0c0d0e0f"
     [0, 1, 2, 3, 4, 5, 6, 7, 8, 9, 10, 11, 12, 13, 14, 15] (fun i => i) [1, 2, 3] none
     (by decide) (by decide)⟩

/-- C2: if the ciphertext or the authentication tag presented to
decryption differs from what encryption produced — the tag replaced by
any other byte string, the ciphertext replaced by any other byte
string, or any single byte of the Security-variant blob changed — the
decryption operation fails with a cryptographic-integrity error and
never returns plaintext. -/
theorem tamper_detection :
    (∀ data key iv, Bytes data → Bytes key → Bytes iv → key.length = 32 →
      Records.encrypt_data data key iv =
        .ok (String.mk (b64encodeVals (xorStream key iv 0 data)),
             String.mk (b64encodeVals (macBytes key iv (xorStream key iv 0 data)))) ∧
      (∀ tag2, Bytes tag2 → tag2 ≠ macBytes key iv (xorStream key iv 0 data) →
        Records.decrypt_data (String.mk (b64encodeVals (xorStream key iv 0 data)))
          (String.mk (b64encodeVals tag2)) key iv = .error .invalidTag) ∧
      (∀ ct2, Bytes ct2 → ct2 ≠ xorStream key iv 0 data →
        Records.decrypt_data (String.mk (b64encodeVals ct2))
          (String.mk (b64encodeVals (macBytes key iv (xorStream key iv 0 data)))) key iv =
          .error .invalidTag)) ∧
    (∀ s key entropy pt nonce0, hexDecode s = some key → keyLenOk key = true →
      Security.encrypt_data (some s) entropy pt (some nonce0) =
        .ok (aesgcmEncrypt key nonce0 pt, nonce0) ∧
      (∀ i b, i < (aesgcmEncrypt key nonce0 pt).length →
        b ≠ (aesgcmEncrypt key nonce0 pt).getD i 0 →
        Security.decrypt_data (some s) ((aesgcmEncrypt key nonce0 pt).set i b) nonce0 =
          .error .invalidTag)) := by
  constructor
  · intro data key iv hd hk hiv hklen
    have hkOk : keyLenOk key = true := by simp [keyLenOk, hklen]
    have hct := xorStream_bytes key iv 0 data hd
    have hmacB := macBytes_bytes key iv _ hk hiv hct
    refine ⟨by simp [Records.encrypt_data, hkOk], ?_, ?_⟩
    · intro tag2 htag2 hne
      unfold Records.decrypt_data
      rw [show (String.mk (b64encodeVals (xorStream key iv 0 data))).toList =
          b64encodeVals (xorStream key iv 0 data) from rfl,
        show (String.mk (b64encodeVals tag2)).toList = b64encodeVals tag2 from rfl,
        b64_roundtrip _ hct, b64_roundtrip _ htag2]
      simp [hkOk, hne]
    · intro ct2 hct2 hne
      unfold Records.decrypt_data
      rw [show (String.mk (b64encodeVals ct2)).toList = b64encodeVals ct2 from rfl,
        show (String.mk (b64encodeVals (macBytes key iv (xorStream key iv 0 data)))).toList =
          b64encodeVals (macBytes key iv (xorStream key iv 0 data)) from rfl,
        b64_roundtrip _ hct2, b64_roundtrip _ hmacB]
      have hmne : macBytes key iv (xorStream key iv 0 data) ≠ macBytes key iv ct2 :=
        fun h => hne (macBytes_inj key iv _ _ h).symm
      simp [hkOk, hmne]
  · intro s key entropy pt nonce0 hhex hkOk
    constructor
    · simp [Security.encrypt_data, Security.get_master_key, hhex, hkOk]
    · intro i b hi hb
      simp [Security.decrypt_data, Security.get_master_key, hhex, hkOk,
        aesgcm_tamper key nonce0 pt i b hi hb]

theorem tamper_detection_witness :
    Bytes [72, 105] ∧ Bytes (List.replicate 32 1) ∧ Bytes (List.replicate 32 2) ∧
    (List.replicate 32 1 : List Nat).length = 32 ∧
    Bytes [0] ∧
    ([0] : List Nat) ≠ macBytes (List.replicate 32 1) (List.replicate 32 2)
      (xorStream (List.replicate 32 1) (List.replicate 32 2) 0 [72, 105]) ∧
    Records.decrypt_data
      (String.mk (b64encodeVals
        (xorStream (List.replicate 32 1) (List.replicate 32 2) 0 [72, 105])))
      (String.mk (b64encodeVals [0])) (List.replicate 32 1) (List.replicate 32 2) =
      .error .invalidTag ∧
    hexDecode "000102030405060708090a0b0c0d0e0f" =
      some [0, 1, 2, 3, 4, 5, 6, 7, 8, 9, 10, 11, 12, 13, 14, 15] ∧
    keyLenOk [0, 1, 2, 3, 4, 5, 6, 7, 8, 9, 10, 11, 12, 13, 14, 15] = true ∧
    (0 < (aesgcmEncrypt [0, 1, 2, 3, 4, 5, 6, 7, 8, 9, 10, 11, 12, 13, 14, 15]
      [9, 9, 9, 9, 9, 9, 9, 9, 9, 9, 9, 9] [5, 6]).length) ∧
    Security.decrypt_data (some "000102030405060708090a0b0c0d0e0f")
      ((aesgcmEncrypt [0, 1, 2, 3, 4, 5, 6, 7, 8, 9, 10, 11, 12, 13, 14, 15]
        [9, 9, 9, 9, 9, 9, 9, 9, 9, 9, 9, 9] [5, 6]).set 0
        (((aesgcmEncrypt [0, 1, 2, 3, 4, 5, 6, 7, 8, 9, 10, 11, 12, 13, 14, 15]
          [9, 9, 9, 9, 9, 9, 9, 9, 9, 9, 9, 9] [5, 6]).getD 0 0 + 1) % 256))
      [9, 9, 9, 9, 9, 9, 9, 9, 9, 9, 9, 9] = .error .invalidTag :=
  ⟨by decide, by decide, by decide, by decide, by decide, by decide,
   ((tamper_detection.1 [72, 105] (List.replicate 32 1) (List.replicate 32 2)
     (by decide) (by decide) (by decide) (by decide)).2.1 [0] (by decide) (by decide)),
   by decide, by decide, by decide,
   ((tamper_detection.2 "000102030405060708090a0b0c0d0e0f"
     [0, 1, 2, 3, 4, 5, 6, 7, 8, 9, 10, 11, 12, 13, 14, 15] (fun i => i) [5, 6]
     [9, 9, 9, 9, 9, 9, 9, 9, 9, 9, 9, 9] (by decide) (by decide)).2 0 _
     (by decide) (by decide))⟩

/-- C7: Security-variant encrypt_data called without a nonce draws a
fresh 12-byte nonce from the secure random source and returns the pair
of raw ciphertext and nonce, the ciphertext being the encrypted bytes
with the authentication tag appended and the nonce returned separately,
not embedded in the ciphertext. -/
theorem encrypt_fresh_nonce_spec (s : String) (key : List Nat) (entropy : Nat → Nat)
    (pt : List Nat) (hhex : hexDecode s = some key) (hkOk : keyLenOk key = true) :
    Security.encrypt_data (some s) entropy pt none =
      .ok (aesgcmEncrypt key (urandom entropy 12) pt, urandom entropy 12) ∧
    (urandom entropy 12).length = 12 ∧
    aesgcmEncrypt key (urandom entropy 12) pt =
      xorStream key (urandom entropy 12) 0 pt ++
        macBytes key (urandom entropy 12) (xorStream key (urandom entropy 12) 0 pt) ∧
    (aesgcmEncrypt key (urandom entropy 12) pt).length =
      pt.length + (1 + key.length + 12 + pt.length) := by
  refine ⟨?_, urandom_length entropy 12, rfl, ?_⟩
  · simp [Security.encrypt_data, Security.get_master_key, hhex, hkOk]
  · simp [aesgcmEncrypt, macBytes_length, xorStream_length, urandom_length]

theorem encrypt_fresh_nonce_spec_witness :
    hexDecode "000102030405060708090a0b0c0d0e0f" =
      some [0, 1, 2, 3, 4, 5, 6, 7, 8, 9, 10, 11, 12, 13, 14, 15] ∧
    keyLenOk [0, 1, 2, 3, 4, 5, 6, 7, 8, 9, 10, 11, 12, 13, 14, 15] = true ∧
    (Security.encrypt_data (some "000102030405060708090a0b0c0d0e0f") (fun i => i)
      [7, 8] none =
      .ok (aesgcmEncrypt [0, 1, 2, 3, 4, 5, 6, 7, 8, 9, 10, 11, 12, 13, 14, 15]
        (urandom (fun i => i) 12) [7, 8], urandom (fun i => i) 12) ∧
     (urandom (fun i => i) 12).length = 12 ∧
     aesgcmEncrypt [0, 1, 2, 3, 4, 5, 6, 7, 8, 9, 10, 11, 12, 13, 14, 15]
       (urandom (fun i => i) 12) [7, 8] =
       xorStream [0, 1, 2, 3, 4, 5, 6, 7, 8, 9, 10, 11, 12, 13, 14, 15]
         (urandom (fun i => i) 12) 0 [7, 8] ++
         macBytes [0, 1, 2, 3, 4, 5, 6, 7, 8, 9, 10, 11, 12, 13, 14, 15]
           (urandom (fun i => i) 12)
           (xorStream [0, 1, 2, 3, 4, 5, 6, 7, 8, 9, 10, 11, 12, 13, 14, 15]
             (urandom (fun i => i) 12) 0 [7, 8]) ∧
     (aesgcmEncrypt [0, 1, 2, 3, 4, 5, 6, 7, 8, 9, 10, 11, 12, 13, 14, 15]
       (urandom (fun i => i) 12) [7, 8]).length = 2 + (1 + 16 + 12 + 2)) :=
  ⟨by decide, by decide,
   encrypt_fresh_nonce_spec "000102030405060708090a0b0c0d0e0f"
     [0, 1, 2, 3, 4, 5, 6, 7, 8, 9, 10, 11, 12, 13, 14, 15] (fun i => i) [7, 8]
     (by decide) (by decide)⟩

/-- C10: Security-variant encrypt_data with a caller-supplied nonce is
deterministic and nonce-preserving: under a fixed master-key
environment value, two runs with the same plaintext and nonce produce
identical results regardless of the random source, and the returned
nonce is exactly the supplied nonce. -/
theorem encrypt_supplied_nonce_deterministic (env : Option String)
    (e1 e2 : Nat → Nat) (pt n : List Nat) :
    Security.encrypt_data env e1 pt (some n) = Security.encrypt_data env e2 pt (some n) ∧
    (∀ s key, env = some s → hexDecode s = some key → keyLenOk key = true →
      Security.encrypt_data env e1 pt (some n) = .ok (aesgcmEncrypt key n pt, n)) := by
  constructor
  · rfl
  · intro s key henv hhex hkOk
    subst henv
    simp [Security.encrypt_data, Security.get_master_key, hhex, hkOk]

theorem encrypt_supplied_nonce_deterministic_witness :
    Security.encrypt_data (some "000102030405060708090a0b0c0d0e0f") (fun i => i)
      [4, 5] (some [1, 1, 1, 1, 1, 1, 1, 1, 1, 1, 1, 1]) =
    Security.encrypt_data (some "000102030405060708090a0b0c0d0e0f") (fun i => i + 7)
      [4, 5] (some [1, 1, 1, 1, 1, 1, 1, 1, 1, 1, 1, 1]) ∧
    (some "000102030405060708090a0b0c0d0e0f" : Option String) =
      some "000102030405060708090a0b0c0d0e0f" ∧
    hexDecode "000102030405060708090a0b0c0d0e0f" =
      some [0, 1, 2, 3, 4, 5, 6, 7, 8, 9, 10, 11, 12, 13, 14, 15] ∧
    keyLenOk [0, 1, 2, 3, 4, 5, 6, 7, 8, 9, 10, 11, 12, 13, 14, 15] = true ∧
    Security.encrypt_data (some "000102030405060708090a0b0c0d0e0f") (fun i => i)
      [4, 5] (some [1, 1, 1, 1, 1, 1, 1, 1, 1, 1, 1, 1]) =
      .ok (aesgcmEncrypt [0, 1, 2, 3, 4, 5, 6, 7, 8, 9, 10, 11, 12, 13, 14, 15]
        [1, 1, 1, 1, 1, 1, 1, 1, 1, 1, 1, 1] [4, 5], [1, 1, 1, 1, 1, 1, 1, 1, 1, 1, 1, 1]) :=
  ⟨(encrypt_supplied_nonce_deterministic (some "000102030405060708090a0b0c0d0e0f")
      (fun i => i) (fun i => i + 7) [4, 5] [1, 1, 1, 1, 1, 1, 1, 1, 1, 1, 1, 1]).1,
   rfl, by decide, by decide,
   (encrypt_supplied_nonce_deterministic (some "000102030405060708090a0b0c0d0e0f")
      (fun i => i) (fun i => i + 7) [4, 5] [1, 1, 1, 1, 1, 1, 1, 1, 1, 1, 1, 1]).2
      "000102030405060708090a0b0c0d0e0f"
      [0, 1, 2, 3, 4, 5, 6, 7, 8, 9, 10, 11, 12, 13, 14, 15] rfl (by decide) (by decide)⟩
